import Mathlib

/-
Verification of the register and stack allocator ("Machine") of the
single-pass x86-64 code generator, a shallow embedding of
`src/lib/compiler-singlepass/src/machine.rs`.

Modelling conventions:
- `u32` bitsets are `Nat` values kept below `2 ^ 32`; the Rust `!x`
  complement on `u32` is `x ^^^ (2 ^ 32 - 1)`.
- `usize` counters are unbounded `Nat` (their `2 ^ 64` overflow is out of
  reach: they only ever grow by small increments); `as u32` / `as i32`
  casts wrap exactly as in Rust.
- Fallible computations return `Option`; `none` models a process abort
  (a failed `assert!` / `debug_assert!` / `unreachable!` / checked
  arithmetic overflow, i.e. debug-profile semantics).
- The instruction emitter is modelled as the list of emitted
  instructions, in emission order.
-/

namespace Wasmer

/-- Modelled from the spec: the general purpose registers of the
x86-64 emitter (`emitter_x64.rs` is not part of the embedded sources);
each has the standard x86-64 encoding as its compact integer repr, which
is the bit position used by the `Machine` bitsets. -/
inductive GPR
  | RAX | RCX | RDX | RBX | RSP | RBP | RSI | RDI
  | R8 | R9 | R10 | R11 | R12 | R13 | R14 | R15
  deriving DecidableEq

/-- The compact integer repr of a GPR (its x86-64 encoding). -/
def GPR.repr : GPR → Nat
  | .RAX => 0 | .RCX => 1 | .RDX => 2 | .RBX => 3
  | .RSP => 4 | .RBP => 5 | .RSI => 6 | .RDI => 7
  | .R8 => 8 | .R9 => 9 | .R10 => 10 | .R11 => 11
  | .R12 => 12 | .R13 => 13 | .R14 => 14 | .R15 => 15

/-- Inverse of `GPR.repr`. -/
def GPR.from_repr : Nat → Option GPR
  | 0 => some .RAX | 1 => some .RCX | 2 => some .RDX | 3 => some .RBX
  | 4 => some .RSP | 5 => some .RBP | 6 => some .RSI | 7 => some .RDI
  | 8 => some .R8 | 9 => some .R9 | 10 => some .R10 | 11 => some .R11
  | 12 => some .R12 | 13 => some .R13 | 14 => some .R14 | 15 => some .R15
  | _ => none

/-- Modelled from the spec: the 128-bit SIMD registers (XMM0..XMM15). -/
inductive XMM
  | XMM0 | XMM1 | XMM2 | XMM3 | XMM4 | XMM5 | XMM6 | XMM7
  | XMM8 | XMM9 | XMM10 | XMM11 | XMM12 | XMM13 | XMM14 | XMM15
  deriving DecidableEq

/-- The compact integer repr of an XMM register. -/
def XMM.repr : XMM → Nat
  | .XMM0 => 0 | .XMM1 => 1 | .XMM2 => 2 | .XMM3 => 3
  | .XMM4 => 4 | .XMM5 => 5 | .XMM6 => 6 | .XMM7 => 7
  | .XMM8 => 8 | .XMM9 => 9 | .XMM10 => 10 | .XMM11 => 11
  | .XMM12 => 12 | .XMM13 => 13 | .XMM14 => 14 | .XMM15 => 15

/-- Inverse of `XMM.repr`. -/
def XMM.from_repr : Nat → Option XMM
  | 0 => some .XMM0 | 1 => some .XMM1 | 2 => some .XMM2 | 3 => some .XMM3
  | 4 => some .XMM4 | 5 => some .XMM5 | 6 => some .XMM6 | 7 => some .XMM7
  | 8 => some .XMM8 | 9 => some .XMM9 | 10 => some .XMM10 | 11 => some .XMM11
  | 12 => some .XMM12 | 13 => some .XMM13 | 14 => some .XMM14 | 15 => some .XMM15
  | _ => none

/-- Modelled from the spec: operand size marker; the Machine only emits
with `S64`. -/
inductive Size
  | S8 | S16 | S32 | S64
  deriving DecidableEq

/-- Modelled from the spec: a `Location` denotes where a value lives. -/
inductive Location
  | GPR (g : GPR)
  | XMM (x : XMM)
  | Memory (base : GPR) (disp : Int)
  | Imm32 (v : Nat)
  | Imm64 (v : Nat)
  deriving DecidableEq

/-- Modelled from the spec: the emitter capability surface consumed by
the Machine, reified as the instructions it appends. -/
inductive Instr
  | Sub (sz : Size) (src dst : Location)
  | Add (sz : Size) (src dst : Location)
  | Mov (sz : Size) (src dst : Location)
  | Xor (sz : Size) (src dst : Location)
  | Lea (sz : Size) (src dst : Location)
  | Pop (sz : Size) (dst : Location)
  | RepStosq
  deriving DecidableEq

/-- Modelled from the spec: the Wasm value types the Machine is asked to
place; `V128` stands for the unsupported types (the source hits
`unreachable!` on them). -/
inductive WpType
  | I32 | I64 | F32 | F64 | V128 | FuncRef | ExternRef
  deriving DecidableEq

/-- Modelled from the spec: the two calling conventions the Machine
distinguishes. -/
inductive CallingConvention
  | SystemV | WindowsFastcall
  deriving DecidableEq

/-- Rust `as u32` on an unsigned value: wrap modulo `2 ^ 32`. -/
def u32cast (n : Nat) : Nat := n % 2 ^ 32

/-- Rust `as i32` on an unsigned value: wrap modulo `2 ^ 32`, then read
the result as a two-complement signed 32-bit value. -/
def toI32 (n : Nat) : Int :=
  if n % 2 ^ 32 < 2 ^ 31 then ((n % 2 ^ 32 : Nat) : Int)
  else ((n % 2 ^ 32 : Nat) : Int) - 2 ^ 32

/-- Rust `-(n as i32)` for a `usize` n: the checked `i32` negation
aborts (debug overflow) exactly when the cast yields `i32::MIN`. -/
def negUsizeAsI32 (n : Nat) : Option Int :=
  if toI32 n = -(2 ^ 31) then none else some (-(toI32 n))

/-- Rust `i32::wrapping_neg`: negation that silently wraps on
`i32::MIN`. -/
def i32wrapNeg (x : Int) : Int :=
  if x = -(2 ^ 31) then x else -x

/-- Rust `!v` on `u32`: bitwise complement within 32 bits. -/
def notU32 (v : Nat) : Nat := v ^^^ (2 ^ 32 - 1)

/-- The Machine state: register bitsets (bit = `repr`, 1 means used),
the tracked stack depth below the frame pointer, the save-area offset
populated by `init_locals`, and the offset of the first stack local. -/
structure Machine where
  used_gprs : Nat
  used_xmms : Nat
  stack_offset : Nat
  save_area_offset : Option Nat
  locals_offset : Nat
  deriving DecidableEq

/-- `Machine::new`: the all-zero state. -/
def Machine.new : Machine :=
  { used_gprs := 0, used_xmms := 0, stack_offset := 0
    save_area_offset := none, locals_offset := 0 }

/-- `u32::trailing_zeros`: index of the least set bit, or 32. -/
def trailingZeros32 (v : Nat) : Nat :=
  ((List.range 32).find? v.testBit).getD 32

/-- `Machine::pick_one_in`: the least set bit if the `u32` is nonzero. -/
def pick_one_in (v : Nat) : Option Nat :=
  let r := trailingZeros32 v
  if r = 32 then none else some r

/-- The `bitset_of_regs!(RSI, RDI, R8, R9, R10, R11)` candidate mask of
`pick_gpr`. -/
def GPR_PICK_REGS : Nat :=
  (1 <<< GPR.RSI.repr) ||| (1 <<< GPR.RDI.repr) ||| (1 <<< GPR.R8.repr) |||
  (1 <<< GPR.R9.repr) ||| (1 <<< GPR.R10.repr) ||| (1 <<< GPR.R11.repr)

/-- The `bitset_of_regs!(RAX, RCX, RDX)` candidate mask of
`pick_temp_gpr`. -/
def GPR_TEMP_REGS : Nat :=
  (1 <<< GPR.RAX.repr) ||| (1 <<< GPR.RCX.repr) ||| (1 <<< GPR.RDX.repr)

/-- The `bitset_of_regs!(XMM3, XMM4, XMM5, XMM6, XMM7)` candidate mask
of `pick_xmm`. -/
def XMM_PICK_REGS : Nat :=
  (1 <<< XMM.XMM3.repr) ||| (1 <<< XMM.XMM4.repr) ||| (1 <<< XMM.XMM5.repr) |||
  (1 <<< XMM.XMM6.repr) ||| (1 <<< XMM.XMM7.repr)

/-- The `bitset_of_regs!(XMM0, XMM1, XMM2)` candidate mask of
`pick_temp_xmm`. -/
def XMM_TEMP_REGS : Nat :=
  (1 <<< XMM.XMM0.repr) ||| (1 <<< XMM.XMM1.repr) ||| (1 <<< XMM.XMM2.repr)

/-- `Machine::pick_gpr`: lowest free candidate value register. The
`unwrap` on `from_repr` cannot fail (the mask holds valid reprs only),
so it is modelled by a default. -/
def Machine.pick_gpr (m : Machine) : Option GPR :=
  (pick_one_in (notU32 m.used_gprs &&& GPR_PICK_REGS)).map
    (fun r => (GPR.from_repr r).getD .RAX)

/-- `Machine::pick_temp_gpr`: lowest free candidate temporary. -/
def Machine.pick_temp_gpr (m : Machine) : Option GPR :=
  (pick_one_in (notU32 m.used_gprs &&& GPR_TEMP_REGS)).map
    (fun r => (GPR.from_repr r).getD .RAX)

/-- `Machine::pick_xmm`. -/
def Machine.pick_xmm (m : Machine) : Option XMM :=
  (pick_one_in (notU32 m.used_xmms &&& XMM_PICK_REGS)).map
    (fun r => (XMM.from_repr r).getD .XMM0)

/-- `Machine::pick_temp_xmm`. -/
def Machine.pick_temp_xmm (m : Machine) : Option XMM :=
  (pick_one_in (notU32 m.used_xmms &&& XMM_TEMP_REGS)).map
    (fun r => (XMM.from_repr r).getD .XMM0)

/-- `Machine::get_gpr_used`. -/
def Machine.get_gpr_used (m : Machine) (r : GPR) : Bool :=
  m.used_gprs &&& (1 <<< r.repr) != 0

/-- `Machine::set_gpr_used`. -/
def Machine.set_gpr_used (m : Machine) (r : GPR) : Machine :=
  { m with used_gprs := m.used_gprs ||| (1 <<< r.repr) }

/-- `Machine::set_gpr_unused`. -/
def Machine.set_gpr_unused (m : Machine) (r : GPR) : Machine :=
  { m with used_gprs := m.used_gprs &&& notU32 (1 <<< r.repr) }

/-- `Machine::get_xmm_used`. -/
def Machine.get_xmm_used (m : Machine) (x : XMM) : Bool :=
  m.used_xmms &&& (1 <<< x.repr) != 0

/-- `Machine::set_xmm_used`. -/
def Machine.set_xmm_used (m : Machine) (x : XMM) : Machine :=
  { m with used_xmms := m.used_xmms ||| (1 <<< x.repr) }

/-- `Machine::set_xmm_unused`. -/
def Machine.set_xmm_unused (m : Machine) (x : XMM) : Machine :=
  { m with used_xmms := m.used_xmms &&& notU32 (1 <<< x.repr) }

/-- `Machine::acquire_temp_gpr`: pick and mark used; `&mut self` is
modelled by also returning the updated machine. -/
def Machine.acquire_temp_gpr (m : Machine) : Option GPR × Machine :=
  match m.pick_temp_gpr with
  | some x => (some x, m.set_gpr_used x)
  | none => (none, m)

/-- `Machine::acquire_temp_xmm`. -/
def Machine.acquire_temp_xmm (m : Machine) : Option XMM × Machine :=
  match m.pick_temp_xmm with
  | some x => (some x, m.set_xmm_used x)
  | none => (none, m)

/-- One iteration of the `acquire_locations` loop: place one type,
returning the updated machine, the location, and the contribution of this step to `delta_stack_offset`. -/
def Machine.acquireOne (m : Machine) (ty : WpType) : Option (Machine × Location × Nat) := do
  let picked ← match ty with
    | .F32 | .F64 => some ((m.pick_xmm).map Location.XMM)
    | .I32 | .I64 => some ((m.pick_gpr).map Location.GPR)
    | .FuncRef | .ExternRef => some ((m.pick_gpr).map Location.GPR)
    | _ => none
  match picked with
  | some loc =>
    match loc with
    | .GPR x => some (m.set_gpr_used x, loc, 0)
    | .XMM x => some (m.set_xmm_used x, loc, 0)
    | _ => some (m, loc, 0)
  | none => do
    let s := m.stack_offset + 8
    let d ← negUsizeAsI32 s
    some ({ m with stack_offset := s }, .Memory .RBP d, 8)

/-- The `for ty in tys` loop of `acquire_locations`. -/
def Machine.acquireLoop (m : Machine) : List WpType → Option (Machine × List Location × Nat)
  | [] => some (m, [], 0)
  | ty :: tys => do
    let (m1, loc, d1) ← m.acquireOne ty
    let (m2, locs, d2) ← m1.acquireLoop tys
    some (m2, loc :: locs, d1 + d2)

/-- `Machine::acquire_locations`: place each type, then emit a single
`sub rsp` when stack slots were allocated, then the zeroing stores when
`zeroed` holds. -/
def Machine.acquire_locations (m : Machine) (tys : List WpType) (zeroed : Bool) :
    Option (Machine × List Location × List Instr) := do
  let (m1, locs, delta) ← m.acquireLoop tys
  let subIs := if delta ≠ 0 then
    [Instr.Sub .S64 (.Imm32 (u32cast delta)) (.GPR .RSP)] else []
  let zIs := if zeroed then locs.map (fun l => Instr.Mov .S64 (.Imm32 0) l) else []
  some (m1, locs, subIs ++ zIs)

/-- One iteration of the `release_locations` loop, on one location
(the loop walks the input in reverse); `d` accumulates
`delta_stack_offset`. -/
def Machine.relStep (m : Machine) (d : Nat) (loc : Location) : Option (Machine × Nat) :=
  match loc with
  | .GPR x => if m.get_gpr_used x then some (m.set_gpr_unused x, d) else none
  | .XMM x => if m.get_xmm_used x then some (m.set_xmm_unused x, d) else none
  | .Memory .RBP x =>
    if 0 ≤ x then none
    else if x = -(2 ^ 31) then none
    else if (-x).toNat = m.stack_offset then
      if m.stack_offset < 8 then none
      else some ({ m with stack_offset := m.stack_offset - 8 }, d + 8)
    else none
  | _ => some (m, d)

/-- The reversed-order loop of `release_locations`. -/
def Machine.relLoop (m : Machine) (d : Nat) : List Location → Option (Machine × Nat)
  | [] => some (m, d)
  | loc :: rest => do
    let (m1, d1) ← m.relStep d loc
    m1.relLoop d1 rest

/-- `Machine::release_locations`. -/
def Machine.release_locations (m : Machine) (locs : List Location) :
    Option (Machine × List Instr) := do
  let (m1, d) ← m.relLoop 0 locs.reverse
  some (m1, if d ≠ 0 then [Instr.Add .S64 (.Imm32 (u32cast d)) (.GPR .RSP)] else [])

/-- One iteration of the `release_locations_only_regs` loop. -/
def Machine.regStep (m : Machine) (loc : Location) : Option Machine :=
  match loc with
  | .GPR x => if m.get_gpr_used x then some (m.set_gpr_unused x) else none
  | .XMM x => if m.get_xmm_used x then some (m.set_xmm_unused x) else none
  | _ => some m

/-- The reversed-order loop of `release_locations_only_regs`. -/
def Machine.regLoop (m : Machine) : List Location → Option Machine
  | [] => some m
  | loc :: rest => do
    let m1 ← m.regStep loc
    m1.regLoop rest

/-- `Machine::release_locations_only_regs`. -/
def Machine.release_locations_only_regs (m : Machine) (locs : List Location) :
    Option Machine :=
  m.regLoop locs.reverse

/-- One iteration of the `release_locations_only_stack` loop. -/
def Machine.stkStep (m : Machine) (d : Nat) (loc : Location) : Option (Machine × Nat) :=
  match loc with
  | .Memory .RBP x =>
    if 0 ≤ x then none
    else if x = -(2 ^ 31) then none
    else if (-x).toNat = m.stack_offset then
      if m.stack_offset < 8 then none
      else some ({ m with stack_offset := m.stack_offset - 8 }, d + 8)
    else none
  | _ => some (m, d)

/-- The reversed-order loop of `release_locations_only_stack`. -/
def Machine.stkLoop (m : Machine) (d : Nat) : List Location → Option (Machine × Nat)
  | [] => some (m, d)
  | loc :: rest => do
    let (m1, d1) ← m.stkStep d loc
    m1.stkLoop d1 rest

/-- `Machine::release_locations_only_stack`. -/
def Machine.release_locations_only_stack (m : Machine) (locs : List Location) :
    Option (Machine × List Instr) := do
  let (m1, d) ← m.stkLoop 0 locs.reverse
  some (m1, if d ≠ 0 then [Instr.Add .S64 (.Imm32 (u32cast d)) (.GPR .RSP)] else [])

/-- One iteration of the `release_locations_keep_state` loop; it tracks
a local copy `s` of `stack_offset` instead of mutating the machine. -/
def ksStep (s d : Nat) (loc : Location) : Option (Nat × Nat) :=
  match loc with
  | .Memory .RBP x =>
    if 0 ≤ x then none
    else if x = -(2 ^ 31) then none
    else if (-x).toNat = s then
      if s < 8 then none
      else some (s - 8, d + 8)
    else none
  | _ => some (s, d)

/-- The reversed-order loop of `release_locations_keep_state`. -/
def ksLoop (s d : Nat) : List Location → Option (Nat × Nat)
  | [] => some (s, d)
  | loc :: rest => do
    let (s1, d1) ← ksStep s d loc
    ksLoop s1 d1 rest

/-- `Machine::release_locations_keep_state`: borrows the machine
immutably (`&self`), so the returned machine is the input itself. -/
def Machine.release_locations_keep_state (m : Machine) (locs : List Location) :
    Option (Machine × List Instr) := do
  let (_, d) ← ksLoop m.stack_offset 0 locs.reverse
  some (m, if d ≠ 0 then [Instr.Add .S64 (.Imm32 (u32cast d)) (.GPR .RSP)] else [])

/-- `Machine::LOCAL_REGISTERS`: the callee-saved registers reserved for
the first Wasm locals. -/
def LOCAL_REGISTERS : List GPR := [.R12, .R13, .R14, .RBX]

/-- `Machine::get_local_location`; the `debug_assert!` sanity ceiling is
modelled as an abort. -/
def Machine.get_local_location (m : Machine) (idx : Nat) : Option Location :=
  if 999999 < idx then none
  else match LOCAL_REGISTERS.get? idx with
    | some r => some (.GPR r)
    | none =>
      let local_offset := u32cast ((idx - LOCAL_REGISTERS.length) * 8)
      some (.Memory .RBP
        (i32wrapNeg (toI32 (u32cast (local_offset + u32cast m.locals_offset)))))

/-- `Machine::get_param_location`: the incoming argument table. -/
def get_param_location (idx : Nat) (cc : CallingConvention) : Location :=
  match cc with
  | .WindowsFastcall =>
    match idx with
    | 0 => .GPR .RCX
    | 1 => .GPR .RDX
    | 2 => .GPR .R8
    | 3 => .GPR .R9
    | _ => .Memory .RBP (toI32 (16 + 32 + (idx - 4) * 8))
  | .SystemV =>
    match idx with
    | 0 => .GPR .RDI
    | 1 => .GPR .RSI
    | 2 => .GPR .RDX
    | 3 => .GPR .RCX
    | 4 => .GPR .R8
    | 5 => .GPR .R9
    | _ => .Memory .RBP (toI32 (16 + (idx - 6) * 8))

/-- Rust `(lo..hi).step_by(step)` as the list of visited indices. -/
def stepByIdxs (lo hi step : Nat) : List Nat :=
  (List.range ((hi - lo + step - 1) / step)).map (fun k => lo + step * k)

/-- The guard-page probe indices of `init_locals`:
`(n_params..n).step_by(PAGE / 8).skip(1)`. -/
def probeIdxs (n_params n : Nat) : List Nat :=
  (stepByIdxs n_params n (4096 / 8)).drop 1

/-- The register-resident zero-initialization instructions of
`init_locals`: `LOCAL_REGISTERS.iter().skip(n_params).take((n_params..n).len())`. -/
def regZeroInstrs (n n_params : Nat) : List Instr :=
  ((LOCAL_REGISTERS.drop n_params).take (n - n_params)).map
    (fun r => Instr.Mov .S64 (.Imm32 0) (.GPR r))

/-- The `rep stosq` zero-initialization block of `init_locals` for the
stack-resident locals. -/
def Machine.stackZeroInstrs (m : Machine) (n n_params : Nat) : Option (List Instr) :=
  let len := n - max LOCAL_REGISTERS.length n_params
  if 0 < len then
    (m.get_local_location (n - 1)).map (fun l =>
      [Instr.Mov .S64 (.Imm64 len) (.GPR .RCX),
       Instr.Xor .S64 (.GPR .RAX) (.GPR .RAX),
       Instr.Lea .S64 l (.GPR .RDI),
       Instr.RepStosq])
  else some []

/-- One callee-saved spill of `init_locals`: advance `stack_offset` by 8
and store the register below the frame pointer. -/
def Machine.spillOne (m : Machine) (r : GPR) : Option (Machine × Instr) :=
  (negUsizeAsI32 (m.stack_offset + 8)).map (fun d =>
    ({ m with stack_offset := m.stack_offset + 8 },
     Instr.Mov .S64 (.GPR r) (.Memory .RBP d)))

/-- Spill a list of registers in order. -/
def Machine.spillRegs (m : Machine) : List GPR → Option (Machine × List Instr)
  | [] => some (m, [])
  | r :: rest => do
    let (m1, i) ← m.spillOne r
    let (m2, is) ← m1.spillRegs rest
    some (m2, i :: is)

/-- The parameter-loading step of `init_locals` for Wasm parameter `i`
(ABI argument `i + 1`): a direct `mov`, routed through `RAX` when both
ends are memory. -/
def Machine.paramMov (m : Machine) (cc : CallingConvention) (i : Nat) : Option (List Instr) := do
  let loc := get_param_location (i + 1) cc
  let local_loc ← m.get_local_location i
  match loc with
  | .GPR _ => some [Instr.Mov .S64 loc local_loc]
  | .Memory _ _ =>
    match local_loc with
    | .GPR _ => some [Instr.Mov .S64 loc local_loc]
    | .Memory _ _ => some [Instr.Mov .S64 loc (.GPR .RAX),
                           Instr.Mov .S64 (.GPR .RAX) local_loc]
    | _ => none
  | _ => none

/-- `Machine::init_locals`: the function prologue. -/
def Machine.init_locals (m : Machine) (n n_params : Nat) (cc : CallingConvention) :
    Option (Machine × List Instr) := do
  let static_area_size :=
    8 * min LOCAL_REGISTERS.length n + 8 +
    (if cc = .WindowsFastcall then 8 * 2 else 0)
  let m := { m with locals_offset := static_area_size + 8 }
  let locals_size := (n - LOCAL_REGISTERS.length) * 8
  let subIs := [Instr.Sub .S64 (.Imm32 (u32cast (static_area_size + locals_size)))
    (.GPR .RSP)]
  let (m, spillIs) ← m.spillRegs (LOCAL_REGISTERS.take n)
  let (m, r15Is) ← m.spillRegs [.R15]
  let (m, winIs) ←
    if cc = .WindowsFastcall then m.spillRegs [.RDI, .RSI] else some (m, [])
  let m := { m with save_area_offset := some m.stack_offset }
  let paramIs ← (List.range n_params).mapM (fun i => m.paramMov cc i)
  let vmctxIs := [Instr.Mov .S64 (get_param_location 0 cc) (.GPR .R15)]
  let probeIs ← (probeIdxs n_params n).mapM (fun i =>
    (m.get_local_location i).map (fun l => Instr.Mov .S64 (.Imm32 0) l))
  let regZeroIs := regZeroInstrs n n_params
  let stackZeroIs ← m.stackZeroInstrs n n_params
  some ({ m with stack_offset := m.stack_offset + locals_size },
    subIs ++ spillIs ++ r15Is ++ winIs ++ paramIs.flatten ++ vmctxIs ++ probeIs ++
    regZeroIs ++ stackZeroIs)

/-- `Machine::finalize_locals`: the function epilogue; `unwrap` on an
absent `save_area_offset` aborts. -/
def Machine.finalize_locals (m : Machine) (cc : CallingConvention) (local_count : Nat) :
    Option (List Instr) := do
  let s ← m.save_area_offset
  let d ← negUsizeAsI32 s
  some ([Instr.Lea .S64 (.Memory .RBP d) (.GPR .RSP)] ++
    (if cc = .WindowsFastcall then
      [Instr.Pop .S64 (.GPR .RSI), Instr.Pop .S64 (.GPR .RDI)] else []) ++
    [Instr.Pop .S64 (.GPR .R15)] ++
    (LOCAL_REGISTERS.take local_count).reverse.map (fun r => Instr.Pop .S64 (.GPR r)))

/-- Whether a location is a `Memory` slot. -/
def isMemLoc : Location → Bool
  | .Memory _ _ => true
  | _ => false

/-- Number of `Memory` slots among a list of locations. -/
def countMem (locs : List Location) : Nat := (locs.filter isMemLoc).length

/-- A well-nested sequence of successful `acquire_locations` /
`release_locations` calls in which every acquired location list is
released exactly once, releases respecting stack (LIFO) order.
The relation connects the machine before the sequence to the machine
after it. -/
inductive PairedSeq : Machine → Machine → Prop
  | refl (m : Machine) : PairedSeq m m
  | seq (m m1 m2 m3 m4 : Machine) (tys : List WpType) (z : Bool)
      (locs : List Location) (is1 is2 : List Instr)
      (hacq : m.acquire_locations tys z = some (m1, locs, is1))
      (hmid : PairedSeq m1 m2)
      (hrel : m2.release_locations locs = some (m3, is2))
      (hrest : PairedSeq m3 m4) : PairedSeq m m4

/-- The machine state after the SystemV `n = 6`, `n_params = 2`
prologue. -/
def postPrologue : Machine :=
  ((Machine.new.init_locals 6 2 .SystemV).map Prod.fst).getD Machine.new

/-
Helper lemmas: bitset reasoning for the `u32` register sets.
-/

theorem testBit_one_shiftLeft (k i : Nat) : (1 <<< k).testBit i = decide (i = k) := by
  rw [Nat.testBit_shiftLeft]
  rcases lt_trichotomy i k with h | h | h
  · simp [Nat.not_le.mpr h, Nat.ne_of_lt h]
  · subst h
    simp
  · have h1 : 0 < i - k := by omega
    have : (1 : Nat).testBit (i - k) = false :=
      Nat.testBit_eq_false_of_lt (by
        calc (1 : Nat) < 2 ^ 1 := by norm_num
        _ ≤ 2 ^ (i - k) := Nat.pow_le_pow_right (by norm_num) h1)
    simp [this, Nat.ne_of_gt h]

theorem testBit_notU32 (v i : Nat) :
    (notU32 v).testBit i = ((v.testBit i).xor (decide (i < 32))) := by
  rw [notU32, Nat.testBit_xor, Nat.testBit_two_pow_sub_one]

theorem one_shiftLeft_lt32 {k : Nat} (hk : k < 32) : 1 <<< k < 2 ^ 32 := by
  rw [Nat.shiftLeft_eq, one_mul]
  exact Nat.pow_lt_pow_right (by norm_num) hk

theorem clear_set_bit {u k : Nat} (hu : u < 2 ^ 32) (hk : k < 32)
    (hb : u.testBit k = false) :
    (u ||| 1 <<< k) &&& notU32 (1 <<< k) = u := by
  apply Nat.eq_of_testBit_eq
  intro i
  rw [Nat.testBit_land, Nat.testBit_lor, testBit_notU32, testBit_one_shiftLeft]
  by_cases hik : i = k
  · subst hik
    simp [hb, hk]
  · by_cases hi32 : i < 32
    · simp [hik, hi32]
    · have hhi : u.testBit i = false :=
        Nat.testBit_eq_false_of_lt
          (lt_of_lt_of_le hu (Nat.pow_le_pow_right (by norm_num) (by omega)))
      simp [hik, hi32, hhi]

theorem Machine.get_gpr_used_eq (m : Machine) (r : GPR) :
    m.get_gpr_used r = m.used_gprs.testBit r.repr := by
  unfold Machine.get_gpr_used
  rw [Nat.shiftLeft_eq, one_mul, Nat.and_two_pow]
  cases h : m.used_gprs.testBit r.repr <;> simp [h]

theorem Machine.get_xmm_used_eq (m : Machine) (x : XMM) :
    m.get_xmm_used x = m.used_xmms.testBit x.repr := by
  unfold Machine.get_xmm_used
  rw [Nat.shiftLeft_eq, one_mul, Nat.and_two_pow]
  cases h : m.used_xmms.testBit x.repr <;> simp [h]

theorem find_congr_on {α : Type} {p q : α → Bool} :
    ∀ {l : List α}, (∀ a ∈ l, p a = q a) → l.find? p = l.find? q := by
  intro l
  induction l with
  | nil => intro _; rfl
  | cons a rest ih =>
    intro h
    have ha := h a (List.mem_cons_self a rest)
    rw [List.find?_cons, List.find?_cons, ha]
    cases q a
    · exact ih (fun b hb => h b (List.mem_cons_of_mem a hb))
    · rfl

theorem pick_one_in_eq_find (v : Nat) :
    pick_one_in v = (List.range 32).find? v.testBit := by
  unfold pick_one_in trailingZeros32
  cases h : (List.range 32).find? v.testBit with
  | none => simp
  | some k =>
    have hk : k < 32 := List.mem_range.mp (List.mem_of_find?_eq_some h)
    simp [Nat.ne_of_lt hk]

theorem find_masked (u mask : Nat) :
    (List.range 32).find? (notU32 u &&& mask).testBit =
      ((List.range 32).filter mask.testBit).find? (fun i => !u.testBit i) := by
  rw [List.find?_filter]
  apply find_congr_on
  intro i hi
  have h32 : i < 32 := List.mem_range.mp hi
  rw [Nat.testBit_land, testBit_notU32]
  simp [h32, Bool.and_comm]

theorem Machine.pick_gpr_eq_find (m : Machine) :
    m.pick_gpr =
      [GPR.RSI, .RDI, .R8, .R9, .R10, .R11].find? (fun r => !(m.get_gpr_used r)) := by
  unfold Machine.pick_gpr
  rw [pick_one_in_eq_find, find_masked]
  have hfilter : (List.range 32).filter GPR_PICK_REGS.testBit = [6, 7, 8, 9, 10, 11] := by
    decide
  have hmap : [GPR.RSI, .RDI, .R8, .R9, .R10, .R11] =
      [6, 7, 8, 9, 10, 11].map (fun r => (GPR.from_repr r).getD .RAX) := by decide
  rw [hfilter, hmap, List.find?_map]
  congr 1
  apply find_congr_on
  intro i hi
  fin_cases hi <;>
    simp [Machine.get_gpr_used_eq, GPR.from_repr, GPR.repr, Function.comp]

theorem Machine.pick_temp_gpr_eq_find (m : Machine) :
    m.pick_temp_gpr =
      [GPR.RAX, .RCX, .RDX].find? (fun r => !(m.get_gpr_used r)) := by
  unfold Machine.pick_temp_gpr
  rw [pick_one_in_eq_find, find_masked]
  have hfilter : (List.range 32).filter GPR_TEMP_REGS.testBit = [0, 1, 2] := by decide
  have hmap : [GPR.RAX, .RCX, .RDX] =
      [0, 1, 2].map (fun r => (GPR.from_repr r).getD .RAX) := by decide
  rw [hfilter, hmap, List.find?_map]
  congr 1
  apply find_congr_on
  intro i hi
  fin_cases hi <;>
    simp [Machine.get_gpr_used_eq, GPR.from_repr, GPR.repr, Function.comp]

theorem Machine.pick_xmm_eq_find (m : Machine) :
    m.pick_xmm =
      [XMM.XMM3, .XMM4, .XMM5, .XMM6, .XMM7].find? (fun x => !(m.get_xmm_used x)) := by
  unfold Machine.pick_xmm
  rw [pick_one_in_eq_find, find_masked]
  have hfilter : (List.range 32).filter XMM_PICK_REGS.testBit = [3, 4, 5, 6, 7] := by
    decide
  have hmap : [XMM.XMM3, .XMM4, .XMM5, .XMM6, .XMM7] =
      [3, 4, 5, 6, 7].map (fun r => (XMM.from_repr r).getD .XMM0) := by decide
  rw [hfilter, hmap, List.find?_map]
  congr 1
  apply find_congr_on
  intro i hi
  fin_cases hi <;>
    simp [Machine.get_xmm_used_eq, XMM.from_repr, XMM.repr, Function.comp]

theorem Machine.pick_temp_xmm_eq_find (m : Machine) :
    m.pick_temp_xmm =
      [XMM.XMM0, .XMM1, .XMM2].find? (fun x => !(m.get_xmm_used x)) := by
  unfold Machine.pick_temp_xmm
  rw [pick_one_in_eq_find, find_masked]
  have hfilter : (List.range 32).filter XMM_TEMP_REGS.testBit = [0, 1, 2] := by decide
  have hmap : [XMM.XMM0, .XMM1, .XMM2] =
      [0, 1, 2].map (fun r => (XMM.from_repr r).getD .XMM0) := by decide
  rw [hfilter, hmap, List.find?_map]
  congr 1
  apply find_congr_on
  intro i hi
  fin_cases hi <;>
    simp [Machine.get_xmm_used_eq, XMM.from_repr, XMM.repr, Function.comp]

theorem Machine.pick_gpr_spec {m : Machine} {r : GPR} (h : m.pick_gpr = some r) :
    m.used_gprs.testBit r.repr = false ∧ r.repr < 32 := by
  rw [Machine.pick_gpr_eq_find] at h
  have hp := List.find?_some h
  have hm := List.mem_of_find?_eq_some h
  refine ⟨?_, ?_⟩
  · rw [← Machine.get_gpr_used_eq]
    simpa using hp
  · fin_cases hm <;> decide

theorem Machine.pick_xmm_spec {m : Machine} {x : XMM} (h : m.pick_xmm = some x) :
    m.used_xmms.testBit x.repr = false ∧ x.repr < 32 := by
  rw [Machine.pick_xmm_eq_find] at h
  have hp := List.find?_some h
  have hm := List.mem_of_find?_eq_some h
  refine ⟨?_, ?_⟩
  · rw [← Machine.get_xmm_used_eq]
    simpa using hp
  · fin_cases hm <;> decide

/-
Claim theorems.
-/

/-- C9: each pick function returns the lowest-indexed register of its
fixed candidate mask (value GPRs RSI, RDI, R8, R9, R10, R11; temp GPRs
RAX, RCX, RDX; value XMMs XMM3..XMM7; temp XMMs XMM0..XMM2) that is not
in the used set, or nothing when all candidates are occupied (`find?` on
the candidate list in mask order); the picks are pure queries (they
return no machine, so `used_gprs` / `used_xmms` are untouched by
construction); consequently three successive `acquire_temp_gpr` calls on
a fresh machine return RAX, RCX, RDX and a fourth returns none. -/
theorem pick_lowest_candidate_spec :
    (∀ m : Machine, m.pick_gpr =
      [GPR.RSI, .RDI, .R8, .R9, .R10, .R11].find? (fun r => !(m.get_gpr_used r))) ∧
    (∀ m : Machine, m.pick_temp_gpr =
      [GPR.RAX, .RCX, .RDX].find? (fun r => !(m.get_gpr_used r))) ∧
    (∀ m : Machine, m.pick_xmm =
      [XMM.XMM3, .XMM4, .XMM5, .XMM6, .XMM7].find? (fun x => !(m.get_xmm_used x))) ∧
    (∀ m : Machine, m.pick_temp_xmm =
      [XMM.XMM0, .XMM1, .XMM2].find? (fun x => !(m.get_xmm_used x))) ∧
    Machine.new.acquire_temp_gpr = (some .RAX, ⟨1, 0, 0, none, 0⟩) ∧
    (⟨1, 0, 0, none, 0⟩ : Machine).acquire_temp_gpr = (some .RCX, ⟨3, 0, 0, none, 0⟩) ∧
    (⟨3, 0, 0, none, 0⟩ : Machine).acquire_temp_gpr = (some .RDX, ⟨7, 0, 0, none, 0⟩) ∧
    (⟨7, 0, 0, none, 0⟩ : Machine).acquire_temp_gpr = (none, ⟨7, 0, 0, none, 0⟩) :=
  ⟨Machine.pick_gpr_eq_find, Machine.pick_temp_gpr_eq_find,
   Machine.pick_xmm_eq_find, Machine.pick_temp_xmm_eq_find,
   by decide, by decide, by decide, by decide⟩

/-- C3: `get_local_location` on any index beyond the sanity ceiling of
999999 aborts instead of returning a Location. -/
theorem get_local_location_sanity_abort (m : Machine) (idx : Nat)
    (h : 999999 < idx) : m.get_local_location idx = none := by
  unfold Machine.get_local_location
  simp [h]

/-- Witness for C3 at index 1000000. -/
theorem get_local_location_sanity_abort_witness :
    999999 < 1000000 ∧ Machine.new.get_local_location 1000000 = none :=
  ⟨by decide, get_local_location_sanity_abort Machine.new 1000000 (by decide)⟩

/-- C2 counterexample: `release_locations_only_regs` does not abort on a
`Memory(RBP, -k)` whose `k` differs from the current stack-top offset;
it ignores `Memory` locations entirely and returns with the machine
unchanged. -/
theorem release_only_regs_no_lifo_abort_cex :
    Machine.new.release_locations_only_regs [.Memory .RBP (-8)] = some Machine.new ∧
    (8 : Nat) ≠ Machine.new.stack_offset := by decide

/-- C2 (amended): in the three release variants that process stack slots
(`release_locations`, `release_locations_only_stack`,
`release_locations_keep_state`), passing a `Memory(RBP, -k)` whose `k`
is not the current stack-top offset aborts without mutating state or
emitting instructions, while `release_locations_only_regs` ignores
`Memory` locations entirely and succeeds with the machine unchanged. -/
theorem release_variants_lifo_abort (m : Machine) (k : Nat)
    (h : k ≠ m.stack_offset) :
    m.release_locations [.Memory .RBP (-(k : Int))] = none ∧
    m.release_locations_only_stack [.Memory .RBP (-(k : Int))] = none ∧
    m.release_locations_keep_state [.Memory .RBP (-(k : Int))] = none ∧
    m.release_locations_only_regs [.Memory .RBP (-(k : Int))] = some m := by
  by_cases hk0 : k = 0
  · subst hk0
    refine ⟨?_, ?_, ?_, ?_⟩ <;>
      simp [Machine.release_locations, Machine.release_locations_only_stack,
        Machine.release_locations_keep_state, Machine.release_locations_only_regs,
        Machine.relLoop, Machine.stkLoop, ksLoop, Machine.regLoop,
        Machine.relStep, Machine.stkStep, ksStep, Machine.regStep]
  · have hneg : ¬(0 ≤ -(k : Int)) := by simpa using hk0
    by_cases hmin : -(k : Int) = -(2 ^ 31)
    · refine ⟨?_, ?_, ?_, ?_⟩ <;>
        simp [Machine.release_locations, Machine.release_locations_only_stack,
          Machine.release_locations_keep_state, Machine.release_locations_only_regs,
          Machine.relLoop, Machine.stkLoop, ksLoop, Machine.regLoop,
          Machine.relStep, Machine.stkStep, ksStep, Machine.regStep, hneg, hmin]
    · have htn : (-(-(k : Int))).toNat = k := by
        rw [neg_neg, Int.toNat_natCast]
      refine ⟨?_, ?_, ?_, ?_⟩ <;>
        simp [Machine.release_locations, Machine.release_locations_only_stack,
          Machine.release_locations_keep_state, Machine.release_locations_only_regs,
          Machine.relLoop, Machine.stkLoop, ksLoop, Machine.regLoop,
          Machine.relStep, Machine.stkStep, ksStep, Machine.regStep,
          hneg, hmin, htn, h]

/-- Witness for C2 (amended) at a fresh machine and k = 8. -/
theorem release_variants_lifo_abort_witness :
    Machine.new.release_locations [.Memory .RBP (-(8 : Nat) : Int)] = none ∧
    Machine.new.release_locations_only_stack [.Memory .RBP (-(8 : Nat) : Int)] = none ∧
    Machine.new.release_locations_keep_state [.Memory .RBP (-(8 : Nat) : Int)] = none ∧
    Machine.new.release_locations_only_regs [.Memory .RBP (-(8 : Nat) : Int)] =
      some Machine.new :=
  release_variants_lifo_abort Machine.new 8 (by decide)

/-- C1 counterexample: the first instruction `init_locals` emits for
SystemV, `n = 6`, `n_params = 2` is not `sub rsp, 48`. -/
theorem init_locals_sysv_6_2_not_sub_48 :
    ¬((Machine.new.init_locals 6 2 .SystemV).map (fun p => p.2.head?) =
      some (some (.Sub .S64 (.Imm32 48) (.GPR .RSP)))) := by decide

/-- C1 (amended): for SystemV with `n = 6` locals and `n_params = 2`,
`init_locals` emits first a single `sub rsp, 56`
(4 local-register spills x 8 + vmctx x 8 + 2 stack locals x 8 = 56),
then four 64-bit spills of R12, R13, R14, RBX to `[rbp-8] .. [rbp-32]`,
then a spill of R15 to `[rbp-40]`; afterwards `locals_offset = 48`,
`save_area_offset = 40` and `stack_offset = 56`. The theorem pins the
whole emitted trace. -/
theorem init_locals_sysv_6_2_trace :
    Machine.new.init_locals 6 2 .SystemV =
      some ({ used_gprs := 0, used_xmms := 0, stack_offset := 56,
              save_area_offset := some 40, locals_offset := 48 },
            [.Sub .S64 (.Imm32 56) (.GPR .RSP),
             .Mov .S64 (.GPR .R12) (.Memory .RBP (-8)),
             .Mov .S64 (.GPR .R13) (.Memory .RBP (-16)),
             .Mov .S64 (.GPR .R14) (.Memory .RBP (-24)),
             .Mov .S64 (.GPR .RBX) (.Memory .RBP (-32)),
             .Mov .S64 (.GPR .R15) (.Memory .RBP (-40)),
             .Mov .S64 (.GPR .RSI) (.GPR .R12),
             .Mov .S64 (.GPR .RDX) (.GPR .R13),
             .Mov .S64 (.GPR .RDI) (.GPR .R15),
             .Mov .S64 (.Imm32 0) (.GPR .R14),
             .Mov .S64 (.Imm32 0) (.GPR .RBX),
             .Mov .S64 (.Imm64 2) (.GPR .RCX),
             .Xor .S64 (.GPR .RAX) (.GPR .RAX),
             .Lea .S64 (.Memory .RBP (-56)) (.GPR .RDI),
             .RepStosq]) := by decide

/-- C10: the register-resident zero-initialization of `init_locals`
targets exactly the callee-saved local registers with index in
`[n_params, min(n, 4))`: when `n < 4` the registers at indices at or
past `n` are untouched, and when `n_params` is at least 4 no
register-local zeroing instruction is emitted at all. -/
theorem reg_zero_indices_spec :
    (∀ n n_params, regZeroInstrs n n_params =
      ((LOCAL_REGISTERS.take (min n 4)).drop n_params).map
        (fun r => Instr.Mov .S64 (.Imm32 0) (.GPR r))) ∧
    (∀ n n_params, 4 ≤ n_params → regZeroInstrs n n_params = []) := by
  constructor
  · intro n np
    unfold regZeroInstrs
    rw [List.drop_take]
    congr 1
    rw [List.take_eq_take]
    have hlen : LOCAL_REGISTERS.length = 4 := by decide
    rw [List.length_drop, hlen]
    omega
  · intro n np h
    unfold regZeroInstrs
    have hnil : LOCAL_REGISTERS.drop np = [] := by
      rw [List.drop_eq_nil_iff]
      have hlen : LOCAL_REGISTERS.length = 4 := by decide
      omega
    rw [hnil]
    simp

/-- Witness for C10: with `n = 6`, `n_params = 5`, no register-local
zeroing instructions are emitted. -/
theorem reg_zero_indices_spec_witness :
    (4 : Nat) ≤ 5 ∧ regZeroInstrs 6 5 = [] :=
  ⟨by decide, reg_zero_indices_spec.2 6 5 (by decide)⟩

theorem mem_probeIdxs (lo n i : Nat) :
    i ∈ probeIdxs lo n ↔ ∃ k, 1 ≤ k ∧ i = lo + 512 * k ∧ i < n := by
  unfold probeIdxs stepByIdxs
  have h48 : (4096 : Nat) / 8 = 512 := by norm_num
  simp only [h48]
  cases hK : (n - lo + 512 - 1) / 512 with
  | zero =>
    simp only [List.range_zero, List.map_nil, List.drop_nil, List.not_mem_nil,
      false_iff]
    rintro ⟨k, hk1, rfl, hlt⟩
    omega
  | succ K =>
    rw [List.range_succ_eq_map]
    simp only [List.map_cons, List.map_map, List.drop_succ_cons, List.drop_zero,
      List.mem_map, List.mem_range, Function.comp]
    constructor
    · rintro ⟨j, hj, rfl⟩
      exact ⟨j + 1, by omega, by omega, by omega⟩
    · rintro ⟨k, hk1, rfl, hlt⟩
      exact ⟨k - 1, by omega, by omega⟩

theorem probeIdxs_short (lo n : Nat) (h : n - lo < 512) : probeIdxs lo n = [] := by
  unfold probeIdxs stepByIdxs
  have h48 : (4096 : Nat) / 8 = 512 := by norm_num
  simp only [h48]
  rw [List.drop_eq_nil_iff]
  rw [List.length_map, List.length_range]
  omega

/-- C8: the guard-page probe of `init_locals` visits exactly the local
indices `n_params + 512 * k` for `k ≥ 1` with `n_params + 512 * k < n`
(stepping every 4096 / 8 = 512 local indices and skipping the first
step); whenever `n - n_params < 512` no probe is emitted, and every
probed index is a stack-resident local (index at least 4). -/
theorem probe_indices_spec :
    (∀ n_params n i, i ∈ probeIdxs n_params n ↔
      ∃ k, 1 ≤ k ∧ i = n_params + 512 * k ∧ i < n) ∧
    (∀ n_params n, n - n_params < 512 → probeIdxs n_params n = []) ∧
    (∀ n_params n i, i ∈ probeIdxs n_params n → 4 ≤ i) := by
  refine ⟨mem_probeIdxs, probeIdxs_short, ?_⟩
  intro np n i hi
  obtain ⟨k, hk1, rfl, _⟩ := (mem_probeIdxs np n i).mp hi
  omega

/-- Witness for C8: index 514 = 2 + 512 * 1 is probed for
`n_params = 2`, `n = 1100`; no probe for `n_params = 2`, `n = 6`;
and 514 is a stack-resident index. -/
theorem probe_indices_spec_witness :
    514 ∈ probeIdxs 2 1100 ∧ probeIdxs 2 6 = [] ∧ 4 ≤ 514 := by
  have hm : 514 ∈ probeIdxs 2 1100 :=
    (probe_indices_spec.1 2 1100 514).mpr ⟨1, by decide, by decide, by decide⟩
  exact ⟨hm, probe_indices_spec.2.1 2 6 (by decide),
    probe_indices_spec.2.2 2 1100 514 hm⟩

/-- C7: `finalize_locals` emits exactly the inverse restores of the
registers `init_locals` spilled, in reverse order: one
`lea rsp, [rbp - save_area_offset]`, then (Windows fastcall only)
`pop rsi` and `pop rdi`, then `pop r15`, then pops of the first
`min(local_count, 4)` callee-saved local registers in reverse order
(RBX first if present, then R14, R13, R12). -/
theorem finalize_locals_shape (m : Machine) (cc : CallingConvention)
    (lc s : Nat) (hs : m.save_area_offset = some s)
    (hbound : toI32 s ≠ -(2 ^ 31)) :
    m.finalize_locals cc lc = some
      ([Instr.Lea .S64 (.Memory .RBP (-(toI32 s))) (.GPR .RSP)] ++
       (if cc = .WindowsFastcall then
         [Instr.Pop .S64 (.GPR .RSI), Instr.Pop .S64 (.GPR .RDI)] else []) ++
       [Instr.Pop .S64 (.GPR .R15)] ++
       (LOCAL_REGISTERS.take (min lc 4)).reverse.map
         (fun r => Instr.Pop .S64 (.GPR r))) := by
  unfold Machine.finalize_locals negUsizeAsI32
  rw [hs]
  simp only [Option.bind_eq_bind, Option.some_bind, hbound, if_false]
  have htake : LOCAL_REGISTERS.take lc = LOCAL_REGISTERS.take (min lc 4) := by
    rw [List.take_eq_take]
    have hlen : LOCAL_REGISTERS.length = 4 := by decide
    rw [hlen]
    omega
  rw [htake]

/-- Witness for C7: after the SystemV `n = 6`, `n_params = 2` prologue,
`finalize_locals(SystemV, 6)` emits exactly
`lea rsp, [rbp-40]; pop r15; pop rbx; pop r14; pop r13; pop r12`. -/
theorem finalize_locals_shape_witness :
    postPrologue.finalize_locals .SystemV 6 =
      some [.Lea .S64 (.Memory .RBP (-40)) (.GPR .RSP),
            .Pop .S64 (.GPR .R15),
            .Pop .S64 (.GPR .RBX),
            .Pop .S64 (.GPR .R14),
            .Pop .S64 (.GPR .R13),
            .Pop .S64 (.GPR .R12)] := by
  have h := finalize_locals_shape postPrologue .SystemV 6 40 (by decide) (by decide)
  simpa using h

theorem ksStep_matches_relStep (m : Machine) (d : Nat) (loc : Location)
    (m1 : Machine) (d1 : Nat) (h : m.relStep d loc = some (m1, d1)) :
    ksStep m.stack_offset d loc = some (m1.stack_offset, d1) := by
  cases loc with
  | GPR x =>
    unfold Machine.relStep at h
    by_cases hu : m.get_gpr_used x
    · simp [hu] at h
      obtain ⟨h1, h2⟩ := h
      subst h1; subst h2
      simp [ksStep, Machine.set_gpr_unused]
    · simp [hu] at h
  | XMM x =>
    unfold Machine.relStep at h
    by_cases hu : m.get_xmm_used x
    · simp [hu] at h
      obtain ⟨h1, h2⟩ := h
      subst h1; subst h2
      simp [ksStep, Machine.set_xmm_unused]
    · simp [hu] at h
  | Memory base x =>
    cases base with
    | RBP =>
      simp only [Machine.relStep] at h
      by_cases h1 : (0 : Int) ≤ x
      · rw [if_pos h1] at h
        exact Option.noConfusion h
      · rw [if_neg h1] at h
        by_cases h2 : x = -(2 ^ 31)
        · rw [if_pos h2] at h
          exact Option.noConfusion h
        · rw [if_neg h2] at h
          by_cases h3 : (-x).toNat = m.stack_offset
          · rw [if_pos h3] at h
            by_cases h4 : m.stack_offset < 8
            · rw [if_pos h4] at h
              exact Option.noConfusion h
            · rw [if_neg h4] at h
              have h9 := Option.some.inj h
              injection h9 with hA hB
              subst hA
              subst hB
              simp only [ksStep]
              rw [if_neg h1, if_neg h2, if_pos h3, if_neg h4]
          · rw [if_neg h3] at h
            exact Option.noConfusion h
    | RAX =>
      simp only [Machine.relStep] at h
      have h9 := Option.some.inj h
      injection h9 with hA hB
      subst hA
      subst hB
      rfl
    | RCX =>
      simp only [Machine.relStep] at h
      have h9 := Option.some.inj h
      injection h9 with hA hB
      subst hA
      subst hB
      rfl
    | RDX =>
      simp only [Machine.relStep] at h
      have h9 := Option.some.inj h
      injection h9 with hA hB
      subst hA
      subst hB
      rfl
    | RBX =>
      simp only [Machine.relStep] at h
      have h9 := Option.some.inj h
      injection h9 with hA hB
      subst hA
      subst hB
      rfl
    | RSP =>
      simp only [Machine.relStep] at h
      have h9 := Option.some.inj h
      injection h9 with hA hB
      subst hA
      subst hB
      rfl
    | RSI =>
      simp only [Machine.relStep] at h
      have h9 := Option.some.inj h
      injection h9 with hA hB
      subst hA
      subst hB
      rfl
    | RDI =>
      simp only [Machine.relStep] at h
      have h9 := Option.some.inj h
      injection h9 with hA hB
      subst hA
      subst hB
      rfl
    | R8 =>
      simp only [Machine.relStep] at h
      have h9 := Option.some.inj h
      injection h9 with hA hB
      subst hA
      subst hB
      rfl
    | R9 =>
      simp only [Machine.relStep] at h
      have h9 := Option.some.inj h
      injection h9 with hA hB
      subst hA
      subst hB
      rfl
    | R10 =>
      simp only [Machine.relStep] at h
      have h9 := Option.some.inj h
      injection h9 with hA hB
      subst hA
      subst hB
      rfl
    | R11 =>
      simp only [Machine.relStep] at h
      have h9 := Option.some.inj h
      injection h9 with hA hB
      subst hA
      subst hB
      rfl
    | R12 =>
      simp only [Machine.relStep] at h
      have h9 := Option.some.inj h
      injection h9 with hA hB
      subst hA
      subst hB
      rfl
    | R13 =>
      simp only [Machine.relStep] at h
      have h9 := Option.some.inj h
      injection h9 with hA hB
      subst hA
      subst hB
      rfl
    | R14 =>
      simp only [Machine.relStep] at h
      have h9 := Option.some.inj h
      injection h9 with hA hB
      subst hA
      subst hB
      rfl
    | R15 =>
      simp only [Machine.relStep] at h
      have h9 := Option.some.inj h
      injection h9 with hA hB
      subst hA
      subst hB
      rfl
  | Imm32 v =>
    simp only [Machine.relStep] at h
    have h9 := Option.some.inj h
    injection h9 with hA hB
    subst hA
    subst hB
    rfl
  | Imm64 v =>
    simp only [Machine.relStep] at h
    have h9 := Option.some.inj h
    injection h9 with hA hB
    subst hA
    subst hB
    rfl

theorem ksLoop_matches_relLoop :
    ∀ (locs : List Location) (m : Machine) (d : Nat) (m1 : Machine) (d1 : Nat),
      m.relLoop d locs = some (m1, d1) →
      ksLoop m.stack_offset d locs = some (m1.stack_offset, d1) := by
  intro locs
  induction locs with
  | nil =>
    intro m d m1 d1 h
    simp [Machine.relLoop] at h
    obtain ⟨h1, h2⟩ := h
    subst h1; subst h2
    rfl
  | cons loc rest ih =>
    intro m d m1 d1 h
    unfold Machine.relLoop at h
    cases hstep : m.relStep d loc with
    | none => rw [hstep] at h; simp at h
    | some p =>
      obtain ⟨ms, ds⟩ := p
      rw [hstep] at h
      simp at h
      unfold ksLoop
      rw [ksStep_matches_relStep m d loc ms ds hstep]
      simp
      exact ih ms ds m1 d1 h

/-- C5: whenever `release_locations` succeeds, `release_locations_keep_state`
on the same machine and location list leaves the machine unchanged
(it borrows the machine immutably) and emits exactly the same
instruction list (the same single `add rsp, delta`, or nothing when
`delta = 0`). -/
theorem release_keep_state_matches_release (m : Machine) (locs : List Location)
    (m1 : Machine) (instrs : List Instr)
    (h : m.release_locations locs = some (m1, instrs)) :
    m.release_locations_keep_state locs = some (m, instrs) := by
  unfold Machine.release_locations at h
  unfold Machine.release_locations_keep_state
  cases hl : m.relLoop 0 locs.reverse with
  | none => rw [hl] at h; simp at h
  | some p =>
    obtain ⟨mr, d⟩ := p
    rw [hl] at h
    simp at h
    rw [ksLoop_matches_relLoop locs.reverse m 0 mr d hl]
    simp [h.2]

/-- Witness for C5: a machine with stack depth 8 releasing its one stack
slot; keep-state emits the same `add rsp, 8` and keeps the state. -/
theorem release_keep_state_matches_release_witness :
    (⟨0, 0, 8, none, 0⟩ : Machine).release_locations_keep_state
        [.Memory .RBP (-8)] =
      some (⟨0, 0, 8, none, 0⟩, [.Add .S64 (.Imm32 8) (.GPR .RSP)]) :=
  release_keep_state_matches_release ⟨0, 0, 8, none, 0⟩ [.Memory .RBP (-8)]
    ⟨0, 0, 0, none, 0⟩ [.Add .S64 (.Imm32 8) (.GPR .RSP)] (by decide)

theorem toI32_small {n : Nat} (h : n < 2 ^ 31) : toI32 n = (n : Int) := by
  unfold toI32
  have h32 : n % 2 ^ 32 = n := Nat.mod_eq_of_lt (by omega)
  rw [h32, if_pos h]

theorem acquire_locations_eq {m : Machine} {tys : List WpType} {z : Bool}
    {m1 : Machine} {locs : List Location} {instrs : List Instr}
    (h : m.acquire_locations tys z = some (m1, locs, instrs)) :
    ∃ delta, m.acquireLoop tys = some (m1, locs, delta) ∧
      instrs =
        (if delta ≠ 0 then
          [Instr.Sub .S64 (.Imm32 (u32cast delta)) (.GPR .RSP)] else []) ++
        (if z then locs.map (fun l => Instr.Mov .S64 (.Imm32 0) l) else []) := by
  unfold Machine.acquire_locations at h
  cases hl : m.acquireLoop tys with
  | none => rw [hl] at h; exact Option.noConfusion h
  | some p =>
    obtain ⟨ma, locsa, delta⟩ := p
    rw [hl] at h
    simp only [Option.bind_eq_bind, Option.some_bind] at h
    have h9 := Option.some.inj h
    injection h9 with hA h10
    injection h10 with hB hC
    subst hA
    subst hB
    subst hC
    exact ⟨delta, rfl, rfl⟩

theorem release_locations_eq {m : Machine} {locs : List Location}
    {m1 : Machine} {instrs : List Instr}
    (h : m.release_locations locs = some (m1, instrs)) :
    ∃ d, m.relLoop 0 locs.reverse = some (m1, d) ∧
      instrs =
        (if d ≠ 0 then [Instr.Add .S64 (.Imm32 (u32cast d)) (.GPR .RSP)] else []) := by
  unfold Machine.release_locations at h
  cases hl : m.relLoop 0 locs.reverse with
  | none => rw [hl] at h; exact Option.noConfusion h
  | some p =>
    obtain ⟨ma, d⟩ := p
    rw [hl] at h
    simp only [Option.bind_eq_bind, Option.some_bind] at h
    have h9 := Option.some.inj h
    injection h9 with hA hB
    subst hA
    subst hB
    exact ⟨d, rfl, rfl⟩

theorem acquireOne_cases {m ma : Machine} {ty : WpType} {loc : Location} {d1 : Nat}
    (h : m.acquireOne ty = some (ma, loc, d1)) :
    (∃ r, m.pick_gpr = some r ∧ loc = .GPR r ∧ ma = m.set_gpr_used r ∧ d1 = 0) ∨
    (∃ x, m.pick_xmm = some x ∧ loc = .XMM x ∧ ma = m.set_xmm_used x ∧ d1 = 0) ∨
    (∃ dint, negUsizeAsI32 (m.stack_offset + 8) = some dint ∧
      loc = .Memory .RBP dint ∧
      ma = { m with stack_offset := m.stack_offset + 8 } ∧ d1 = 8) := by
  cases ty with
  | I32 | I64 | FuncRef | ExternRef =>
    cases hp : m.pick_gpr with
    | some r =>
      refine Or.inl ⟨r, rfl, ?_⟩
      simp only [Machine.acquireOne, hp] at h
      have h9 := Option.some.inj h
      injection h9 with hA h10
      injection h10 with hB hC
      exact ⟨hB.symm, hA.symm, hC.symm⟩
    | none =>
      refine Or.inr (Or.inr ?_)
      simp only [Machine.acquireOne, hp] at h
      cases hn : negUsizeAsI32 (m.stack_offset + 8) with
      | none => rw [hn] at h; exact Option.noConfusion h
      | some dint =>
        rw [hn] at h
        simp only [Option.bind_eq_bind, Option.some_bind] at h
        have h9 := Option.some.inj h
        injection h9 with hA h10
        injection h10 with hB hC
        exact ⟨dint, rfl, hB.symm, hA.symm, hC.symm⟩
  | F32 | F64 =>
    cases hp : m.pick_xmm with
    | some x =>
      refine Or.inr (Or.inl ⟨x, rfl, ?_⟩)
      simp only [Machine.acquireOne, hp] at h
      have h9 := Option.some.inj h
      injection h9 with hA h10
      injection h10 with hB hC
      exact ⟨hB.symm, hA.symm, hC.symm⟩
    | none =>
      refine Or.inr (Or.inr ?_)
      simp only [Machine.acquireOne, hp] at h
      cases hn : negUsizeAsI32 (m.stack_offset + 8) with
      | none => rw [hn] at h; exact Option.noConfusion h
      | some dint =>
        rw [hn] at h
        simp only [Option.bind_eq_bind, Option.some_bind] at h
        have h9 := Option.some.inj h
        injection h9 with hA h10
        injection h10 with hB hC
        exact ⟨dint, rfl, hB.symm, hA.symm, hC.symm⟩
  | V128 =>
    simp only [Machine.acquireOne] at h
    exact Option.noConfusion h

theorem memFormula_shift (s c : Nat) :
    (List.range c).map
        (fun j => Location.Memory .RBP (-((s + 8 + 8 * (j + 1) : Nat) : Int))) =
      (List.range c).map
        ((fun j => Location.Memory .RBP (-((s + 8 * (j + 1) : Nat) : Int))) ∘
          Nat.succ) := by
  apply List.map_congr_left
  intro j hj
  simp only [Function.comp]
  have heq : s + 8 + 8 * (j + 1) = s + 8 * (Nat.succ j + 1) := by omega
  rw [heq]

theorem acquireLoop_spec :
    ∀ (tys : List WpType) (m m1 : Machine) (locs : List Location) (delta : Nat),
      m.acquireLoop tys = some (m1, locs, delta) →
      locs.length = tys.length ∧
      delta = 8 * countMem locs ∧
      m1.stack_offset = m.stack_offset + delta ∧
      (∀ k, m.used_gprs.testBit k = true → m1.used_gprs.testBit k = true) ∧
      (∀ k, m.used_xmms.testBit k = true → m1.used_xmms.testBit k = true) ∧
      (∀ r, Location.GPR r ∈ locs → m1.used_gprs.testBit r.repr = true) ∧
      (∀ x, Location.XMM x ∈ locs → m1.used_xmms.testBit x.repr = true) ∧
      (m.used_gprs < 2 ^ 32 → m1.used_gprs < 2 ^ 32) ∧
      (m.used_xmms < 2 ^ 32 → m1.used_xmms < 2 ^ 32) ∧
      (m.stack_offset + delta < 2 ^ 31 →
        locs.filter isMemLoc = (List.range (countMem locs)).map
          (fun j => Location.Memory .RBP (-((m.stack_offset + 8 * (j + 1) : Nat) : Int)))) := by
  intro tys
  induction tys with
  | nil =>
    intro m m1 locs delta h
    simp only [Machine.acquireLoop] at h
    have h9 := Option.some.inj h
    injection h9 with hA h10
    injection h10 with hB hC
    subst hA
    subst hB
    subst hC
    simp [countMem]
  | cons ty tys ih =>
    intro m m1 locs delta h
    unfold Machine.acquireLoop at h
    cases hone : m.acquireOne ty with
    | none => rw [hone] at h; exact Option.noConfusion h
    | some p =>
      obtain ⟨ma, loc, d1⟩ := p
      rw [hone] at h
      simp only [Option.bind_eq_bind, Option.some_bind] at h
      cases hrest : ma.acquireLoop tys with
      | none => rw [hrest] at h; exact Option.noConfusion h
      | some q =>
        obtain ⟨mb, locs2, d2⟩ := q
        rw [hrest] at h
        simp only [Option.bind_eq_bind, Option.some_bind] at h
        have h9 := Option.some.inj h
        injection h9 with hA h10
        injection h10 with hB hC
        subst hA
        subst hB
        subst hC
        obtain ⟨hl, hd, hs, hmg, hmx, hpg, hpx, hbg, hbx, hmem⟩ :=
          ih ma mb locs2 d2 hrest
        rcases acquireOne_cases hone with
          ⟨r, hp, hloc, hma, hd1⟩ | ⟨x, hp, hloc, hma, hd1⟩ |
          ⟨dint, hn, hloc, hma, hd1⟩
        · subst hloc
          subst hma
          subst hd1
          obtain ⟨hfree, hlt32⟩ := Machine.pick_gpr_spec hp
          have hcm : countMem (Location.GPR r :: locs2) = countMem locs2 := by
            simp [countMem, isMemLoc]
          have hs2 : mb.stack_offset = m.stack_offset + d2 := hs
          have hmg2 : ∀ k, (m.used_gprs ||| 1 <<< r.repr).testBit k = true →
              mb.used_gprs.testBit k = true := hmg
          have hmem2 : m.stack_offset + d2 < 2 ^ 31 →
              List.filter isMemLoc locs2 =
                List.map (fun j => Location.Memory .RBP
                  (-((m.stack_offset + 8 * (j + 1) : Nat) : Int)))
                  (List.range (countMem locs2)) := hmem
          refine ⟨by simpa using hl, by rw [hcm]; omega, by omega,
            ?_, ?_, ?_, ?_, ?_, ?_, ?_⟩
          · intro k hk
            exact hmg2 k (by rw [Nat.testBit_lor, hk]; rfl)
          · intro k hk
            exact hmx k hk
          · intro r2 hr2
            rcases List.mem_cons.mp hr2 with heq | hmemb
            · have hr : r2 = r := by injection heq
              subst hr
              exact hmg2 r2.repr (by
                rw [Nat.testBit_lor, testBit_one_shiftLeft]
                simp)
            · exact hpg r2 hmemb
          · intro x2 hx2
            rcases List.mem_cons.mp hx2 with heq | hmemb
            · exact absurd heq (by simp)
            · exact hpx x2 hmemb
          · intro hb
            exact hbg (Nat.or_lt_two_pow hb (one_shiftLeft_lt32 hlt32))
          · intro hb
            exact hbx hb
          · intro hbound
            have hfilter : List.filter isMemLoc (Location.GPR r :: locs2) =
                List.filter isMemLoc locs2 := by
              simp [isMemLoc]
            rw [hcm, hfilter]
            exact hmem2 (by omega)
        · subst hloc
          subst hma
          subst hd1
          obtain ⟨hfree, hlt32⟩ := Machine.pick_xmm_spec hp
          have hcm : countMem (Location.XMM x :: locs2) = countMem locs2 := by
            simp [countMem, isMemLoc]
          have hs2 : mb.stack_offset = m.stack_offset + d2 := hs
          have hmx2 : ∀ k, (m.used_xmms ||| 1 <<< x.repr).testBit k = true →
              mb.used_xmms.testBit k = true := hmx
          have hmem2 : m.stack_offset + d2 < 2 ^ 31 →
              List.filter isMemLoc locs2 =
                List.map (fun j => Location.Memory .RBP
                  (-((m.stack_offset + 8 * (j + 1) : Nat) : Int)))
                  (List.range (countMem locs2)) := hmem
          refine ⟨by simpa using hl, by rw [hcm]; omega, by omega,
            ?_, ?_, ?_, ?_, ?_, ?_, ?_⟩
          · intro k hk
            exact hmg k hk
          · intro k hk
            exact hmx2 k (by rw [Nat.testBit_lor, hk]; rfl)
          · intro r2 hr2
            rcases List.mem_cons.mp hr2 with heq | hmemb
            · exact absurd heq (by simp)
            · exact hpg r2 hmemb
          · intro x2 hx2
            rcases List.mem_cons.mp hx2 with heq | hmemb
            · have hx : x2 = x := by injection heq
              subst hx
              exact hmx2 x2.repr (by
                rw [Nat.testBit_lor, testBit_one_shiftLeft]
                simp)
            · exact hpx x2 hmemb
          · intro hb
            exact hbg hb
          · intro hb
            exact hbx (Nat.or_lt_two_pow hb (one_shiftLeft_lt32 hlt32))
          · intro hbound
            have hfilter : List.filter isMemLoc (Location.XMM x :: locs2) =
                List.filter isMemLoc locs2 := by
              simp [isMemLoc]
            rw [hcm, hfilter]
            exact hmem2 (by omega)
        · subst hloc
          subst hma
          subst hd1
          have hcm : countMem (Location.Memory .RBP dint :: locs2) =
              countMem locs2 + 1 := by
            simp [countMem, isMemLoc]
          have hs2 : mb.stack_offset = m.stack_offset + 8 + d2 := hs
          have hmem2 : m.stack_offset + 8 + d2 < 2 ^ 31 →
              List.filter isMemLoc locs2 =
                List.map (fun j => Location.Memory .RBP
                  (-((m.stack_offset + 8 + 8 * (j + 1) : Nat) : Int)))
                  (List.range (countMem locs2)) := hmem
          refine ⟨by simpa using hl, by rw [hcm]; omega, by omega,
            ?_, ?_, ?_, ?_, ?_, ?_, ?_⟩
          · intro k hk
            exact hmg k hk
          · intro k hk
            exact hmx k hk
          · intro r2 hr2
            rcases List.mem_cons.mp hr2 with heq | hmemb
            · exact absurd heq (by simp)
            · exact hpg r2 hmemb
          · intro x2 hx2
            rcases List.mem_cons.mp hx2 with heq | hmemb
            · exact absurd heq (by simp)
            · exact hpx x2 hmemb
          · exact hbg
          · exact hbx
          · intro hbound
            have hb8 : m.stack_offset + 8 < 2 ^ 31 := by omega
            have hdint : dint = -((m.stack_offset + 8 : Nat) : Int) := by
              unfold negUsizeAsI32 at hn
              rw [toI32_small hb8] at hn
              by_cases hc : ((m.stack_offset + 8 : Nat) : Int) = -(2 ^ 31)
              · rw [if_pos hc] at hn
                exact Option.noConfusion hn
              · rw [if_neg hc] at hn
                exact (Option.some.inj hn).symm
            have hrestmem := hmem2 (by omega)
            rw [hcm]
            have hfilter :
                List.filter isMemLoc (Location.Memory .RBP dint :: locs2) =
                  Location.Memory .RBP dint :: List.filter isMemLoc locs2 := by
              simp [List.filter_cons, isMemLoc]
            rw [hfilter, List.range_succ_eq_map, List.map_cons, List.map_map]
            congr 1
            · rw [hdint]
            · rw [hrestmem]
              exact memFormula_shift m.stack_offset (countMem locs2)

/-- C4: `acquire_locations` returns one location per input type; each
type gets a register of its file (marked used in the result state) when
the pick succeeds and otherwise an 8-byte stack slot, the stack slots
being `Memory(RBP, -(stack_offset + 8(j+1)))` in order; the final
`stack_offset` grows by exactly 8 per stack slot; exactly one
`sub rsp, delta` is emitted iff the total stack delta is nonzero, and
when `zeroed` holds a 64-bit zero store to each returned location
follows; on ten I32s from a fresh machine this yields RSI, RDI, R8, R9,
R10, R11 then `[RBP-8] .. [RBP-32]` with exactly `sub rsp, 32`. -/
theorem acquire_locations_spec :
    (∀ (m : Machine) (tys : List WpType) (z : Bool) (m1 : Machine)
        (locs : List Location) (instrs : List Instr),
      m.acquire_locations tys z = some (m1, locs, instrs) →
      locs.length = tys.length ∧
      m1.stack_offset = m.stack_offset + 8 * countMem locs ∧
      instrs =
        (if 8 * countMem locs ≠ 0 then
          [Instr.Sub .S64 (.Imm32 (u32cast (8 * countMem locs))) (.GPR .RSP)]
         else []) ++
        (if z then locs.map (fun l => Instr.Mov .S64 (.Imm32 0) l) else []) ∧
      (∀ r, Location.GPR r ∈ locs → m1.get_gpr_used r = true) ∧
      (∀ x, Location.XMM x ∈ locs → m1.get_xmm_used x = true) ∧
      (m.stack_offset + 8 * countMem locs < 2 ^ 31 →
        locs.filter isMemLoc = (List.range (countMem locs)).map
          (fun j => Location.Memory .RBP
            (-((m.stack_offset + 8 * (j + 1) : Nat) : Int))))) ∧
    Machine.new.acquire_locations
        [.I32, .I32, .I32, .I32, .I32, .I32, .I32, .I32, .I32, .I32] false =
      some ({ used_gprs := 4032, used_xmms := 0, stack_offset := 32,
              save_area_offset := none, locals_offset := 0 },
            [.GPR .RSI, .GPR .RDI, .GPR .R8, .GPR .R9, .GPR .R10, .GPR .R11,
             .Memory .RBP (-8), .Memory .RBP (-16), .Memory .RBP (-24),
             .Memory .RBP (-32)],
            [.Sub .S64 (.Imm32 32) (.GPR .RSP)]) := by
  constructor
  · intro m tys z m1 locs instrs h
    obtain ⟨delta, hloop, hinstr⟩ := acquire_locations_eq h
    obtain ⟨hl, hd, hs, _, _, hpg, hpx, _, _, hmem⟩ :=
      acquireLoop_spec tys m m1 locs delta hloop
    subst hd
    refine ⟨hl, hs, hinstr, ?_, ?_, hmem⟩
    · intro r hr
      rw [Machine.get_gpr_used_eq]
      exact hpg r hr
    · intro x hx
      rw [Machine.get_xmm_used_eq]
      exact hpx x hx
  · decide

/-- Witness for C4 at `acquire_locations([I64, F64], zeroed = true)` on
a fresh machine: two locations for two types, no stack growth. -/
theorem acquire_locations_spec_witness :
    [Location.GPR .RSI, Location.XMM .XMM3].length =
      [WpType.I64, WpType.F64].length ∧
    ({ used_gprs := 64, used_xmms := 8, stack_offset := 0,
       save_area_offset := none, locals_offset := 0 } : Machine).stack_offset =
      Machine.new.stack_offset +
        8 * countMem [Location.GPR .RSI, Location.XMM .XMM3] := by
  have h := acquire_locations_spec.1 Machine.new [.I64, .F64] true
    { used_gprs := 64, used_xmms := 8, stack_offset := 0,
      save_area_offset := none, locals_offset := 0 }
    [.GPR .RSI, .XMM .XMM3]
    [.Mov .S64 (.Imm32 0) (.GPR .RSI), .Mov .S64 (.Imm32 0) (.XMM .XMM3)]
    (by decide)
  exact ⟨h.1, h.2.1⟩

theorem relLoop_append (xs ys : List Location) :
    ∀ (m : Machine) (d : Nat),
      m.relLoop d (xs ++ ys) =
        (m.relLoop d xs).bind (fun p => p.1.relLoop p.2 ys) := by
  induction xs with
  | nil =>
    intro m d
    simp [Machine.relLoop]
  | cons a rest ih =>
    intro m d
    rw [List.cons_append]
    show (m.relStep d a).bind (fun p => p.1.relLoop p.2 (rest ++ ys)) =
      ((m.relStep d a).bind (fun p => p.1.relLoop p.2 rest)).bind
        (fun p => p.1.relLoop p.2 ys)
    cases hs : m.relStep d a with
    | none => rfl
    | some p =>
      obtain ⟨m1, d1⟩ := p
      exact ih m1 d1

theorem relStep_invert_gpr {mm : Machine} {dd : Nat} {r : GPR} {mr : Machine}
    {dr : Nat} (h : mm.relStep dd (.GPR r) = some (mr, dr)) :
    mr = mm.set_gpr_unused r ∧ dr = dd := by
  simp only [Machine.relStep] at h
  by_cases hu : mm.get_gpr_used r
  · rw [if_pos hu] at h
    have h9 := Option.some.inj h
    injection h9 with hA hB
    exact ⟨hA.symm, hB.symm⟩
  · rw [if_neg hu] at h
    exact Option.noConfusion h

theorem relStep_invert_xmm {mm : Machine} {dd : Nat} {x : XMM} {mr : Machine}
    {dr : Nat} (h : mm.relStep dd (.XMM x) = some (mr, dr)) :
    mr = mm.set_xmm_unused x ∧ dr = dd := by
  simp only [Machine.relStep] at h
  by_cases hu : mm.get_xmm_used x
  · rw [if_pos hu] at h
    have h9 := Option.some.inj h
    injection h9 with hA hB
    exact ⟨hA.symm, hB.symm⟩
  · rw [if_neg hu] at h
    exact Option.noConfusion h

theorem relStep_invert_mem {mm : Machine} {dd : Nat} {x : Int} {mr : Machine}
    {dr : Nat} (h : mm.relStep dd (.Memory .RBP x) = some (mr, dr)) :
    mr = { mm with stack_offset := mm.stack_offset - 8 } ∧ dr = dd + 8 := by
  simp only [Machine.relStep] at h
  by_cases h1 : (0 : Int) ≤ x
  · rw [if_pos h1] at h
    exact Option.noConfusion h
  · rw [if_neg h1] at h
    by_cases h2 : x = -(2 ^ 31)
    · rw [if_pos h2] at h
      exact Option.noConfusion h
    · rw [if_neg h2] at h
      by_cases h3 : (-x).toNat = mm.stack_offset
      · rw [if_pos h3] at h
        by_cases h4 : mm.stack_offset < 8
        · rw [if_pos h4] at h
          exact Option.noConfusion h
        · rw [if_neg h4] at h
          have h9 := Option.some.inj h
          injection h9 with hA hB
          exact ⟨hA.symm, hB.symm⟩
      · rw [if_neg h3] at h
        exact Option.noConfusion h

theorem acquireLoop_inverse :
    ∀ (tys : List WpType) (m m1 : Machine) (locs : List Location) (delta : Nat),
      m.acquireLoop tys = some (m1, locs, delta) →
      m.used_gprs < 2 ^ 32 → m.used_xmms < 2 ^ 32 →
      ∀ (mm : Machine) (d : Nat) (mr : Machine) (dr : Nat),
        mm.used_gprs = m1.used_gprs → mm.used_xmms = m1.used_xmms →
        mm.stack_offset = m1.stack_offset →
        mm.relLoop d locs.reverse = some (mr, dr) →
        mr.used_gprs = m.used_gprs ∧ mr.used_xmms = m.used_xmms ∧
        mr.stack_offset = m.stack_offset ∧ dr = d + delta := by
  intro tys
  induction tys with
  | nil =>
    intro m m1 locs delta h hg hx mm d mr dr hg2 hx2 hs2 hrel
    simp only [Machine.acquireLoop] at h
    have h9 := Option.some.inj h
    injection h9 with hA h10
    injection h10 with hB hC
    subst hA
    subst hB
    subst hC
    simp only [List.reverse_nil, Machine.relLoop] at hrel
    have h8 := Option.some.inj hrel
    injection h8 with hD hE
    subst hD
    subst hE
    exact ⟨hg2, hx2, hs2, by omega⟩
  | cons ty tys ih =>
    intro m m1 locs delta h hg hx mm d mr dr hg2 hx2 hs2 hrel
    unfold Machine.acquireLoop at h
    cases hone : m.acquireOne ty with
    | none => rw [hone] at h; exact Option.noConfusion h
    | some p =>
      obtain ⟨ma, loc, d1⟩ := p
      rw [hone] at h
      simp only [Option.bind_eq_bind, Option.some_bind] at h
      cases hrest : ma.acquireLoop tys with
      | none => rw [hrest] at h; exact Option.noConfusion h
      | some q =>
        obtain ⟨mb, locs2, d2⟩ := q
        rw [hrest] at h
        simp only [Option.bind_eq_bind, Option.some_bind] at h
        have h9 := Option.some.inj h
        injection h9 with hA h10
        injection h10 with hB hC
        subst hA
        subst hB
        subst hC
        rw [List.reverse_cons, relLoop_append] at hrel
        cases hmid : mm.relLoop d locs2.reverse with
        | none => rw [hmid] at hrel; exact Option.noConfusion hrel
        | some pm =>
          obtain ⟨mmid, dmid⟩ := pm
          rw [hmid] at hrel
          simp only [Option.bind_eq_bind, Option.some_bind] at hrel
          unfold Machine.relLoop at hrel
          cases hstep : mmid.relStep dmid loc with
          | none => rw [hstep] at hrel; exact Option.noConfusion hrel
          | some ps =>
            obtain ⟨ms, ds⟩ := ps
            rw [hstep] at hrel
            simp only [Option.bind_eq_bind, Option.some_bind,
              Machine.relLoop] at hrel
            have h8 := Option.some.inj hrel
            injection h8 with hD hE
            subst hD
            subst hE
            rcases acquireOne_cases hone with
              ⟨r, hp, hloc, hma, hd1⟩ | ⟨x, hp, hloc, hma, hd1⟩ |
              ⟨dint, hn, hloc, hma, hd1⟩
            · subst hloc
              subst hma
              subst hd1
              obtain ⟨hfree, hlt32⟩ := Machine.pick_gpr_spec hp
              have hbg : (m.set_gpr_used r).used_gprs < 2 ^ 32 :=
                Nat.or_lt_two_pow hg (one_shiftLeft_lt32 hlt32)
              obtain ⟨i1, i2, i3, i4⟩ :=
                ih (m.set_gpr_used r) mb locs2 d2 hrest hbg hx mm d mmid dmid
                  hg2 hx2 hs2 hmid
              obtain ⟨hms, hds⟩ := relStep_invert_gpr hstep
              subst hms
              subst hds
              have i1g : mmid.used_gprs = m.used_gprs ||| 1 <<< r.repr := i1
              refine ⟨?_, ?_, ?_, by omega⟩
              · show mmid.used_gprs &&& notU32 (1 <<< r.repr) = m.used_gprs
                rw [i1g]
                exact clear_set_bit hg hlt32 hfree
              · exact i2
              · exact i3
            · subst hloc
              subst hma
              subst hd1
              obtain ⟨hfree, hlt32⟩ := Machine.pick_xmm_spec hp
              have hbx : (m.set_xmm_used x).used_xmms < 2 ^ 32 :=
                Nat.or_lt_two_pow hx (one_shiftLeft_lt32 hlt32)
              obtain ⟨i1, i2, i3, i4⟩ :=
                ih (m.set_xmm_used x) mb locs2 d2 hrest hg hbx mm d mmid dmid
                  hg2 hx2 hs2 hmid
              obtain ⟨hms, hds⟩ := relStep_invert_xmm hstep
              subst hms
              subst hds
              have i2x : mmid.used_xmms = m.used_xmms ||| 1 <<< x.repr := i2
              refine ⟨i1, ?_, i3, by omega⟩
              show mmid.used_xmms &&& notU32 (1 <<< x.repr) = m.used_xmms
              rw [i2x]
              exact clear_set_bit hx hlt32 hfree
            · subst hloc
              subst hma
              subst hd1
              obtain ⟨i1, i2, i3, i4⟩ :=
                ih { m with stack_offset := m.stack_offset + 8 } mb locs2 d2
                  hrest hg hx mm d mmid dmid hg2 hx2 hs2 hmid
              obtain ⟨hms, hds⟩ := relStep_invert_mem hstep
              subst hms
              subst hds
              have i3s : mmid.stack_offset = m.stack_offset + 8 := i3
              refine ⟨i1, i2, ?_, by omega⟩
              show mmid.stack_offset - 8 = m.stack_offset
              omega

/-- C6: for any well-nested sequence of successful `acquire_locations`
and `release_locations` calls in which every acquired location list is
released exactly once (releases respecting stack order), `used_gprs`
and `used_xmms` return to their pre-sequence values (0 from a fresh
machine) and `stack_offset` returns to its pre-sequence value. -/
theorem paired_seq_conservation {m m4 : Machine} (hps : PairedSeq m m4) :
    m.used_gprs < 2 ^ 32 → m.used_xmms < 2 ^ 32 →
    m4.used_gprs = m.used_gprs ∧ m4.used_xmms = m.used_xmms ∧
    m4.stack_offset = m.stack_offset := by
  induction hps with
  | refl m => exact fun _ _ => ⟨rfl, rfl, rfl⟩
  | seq m m1 m2 m3 m4 tys z locs is1 is2 hacq hmid hrel hrest ih1 ih2 =>
    intro hg hx
    obtain ⟨delta, hloop, _⟩ := acquire_locations_eq hacq
    obtain ⟨_, _, _, _, _, _, _, hbg, hbx, _⟩ :=
      acquireLoop_spec tys m m1 locs delta hloop
    obtain ⟨e1, e2, e3⟩ := ih1 (hbg hg) (hbx hx)
    obtain ⟨dr, hrloop, _⟩ := release_locations_eq hrel
    obtain ⟨f1, f2, f3, _⟩ :=
      acquireLoop_inverse tys m m1 locs delta hloop hg hx m2 0 m3 dr
        e1 e2 e3 hrloop
    obtain ⟨g1, g2, g3⟩ := ih2 (by rw [f1]; exact hg) (by rw [f2]; exact hx)
    exact ⟨by rw [g1, f1], by rw [g2, f2], by rw [g3, f3]⟩

/-- Witness for C6: one acquire of an I32 (placed in RSI) followed by
its release, starting from a fresh machine, restores the all-free
state. -/
theorem paired_seq_conservation_witness :
    (⟨0, 0, 0, none, 0⟩ : Machine).used_gprs = Machine.new.used_gprs ∧
    (⟨0, 0, 0, none, 0⟩ : Machine).used_xmms = Machine.new.used_xmms ∧
    (⟨0, 0, 0, none, 0⟩ : Machine).stack_offset = Machine.new.stack_offset :=
  paired_seq_conservation
    (PairedSeq.seq Machine.new ⟨64, 0, 0, none, 0⟩ ⟨64, 0, 0, none, 0⟩
      ⟨0, 0, 0, none, 0⟩ ⟨0, 0, 0, none, 0⟩ [.I32] false [.GPR .RSI] [] []
      (by decide) (PairedSeq.refl _) (by decide) (PairedSeq.refl _))
    (by decide) (by decide)

end Wasmer
